import Mathlib

/-!
Verification development for the `TSMT$Deviates` pseudo-random deviate
generator (`src/deviates.ts`) of the TypescriptRandom repository.

The TypeScript class is shallowly embedded as follows.

* JavaScript numbers that are known to hold integer values within the
  float64-exact range are modelled as `ℤ`; fractional deviate values are
  modelled as `ℚ` (every quantity produced by the uniform engine is an exact
  dyadic/decimal rational well inside float64 exactness, see the comments on
  the individual definitions); transcendental quantities of the normal and
  gamma transforms are modelled as `ℝ`.
* A JavaScript number that may be `NaN` is modelled as `Option _`, with
  `none` playing the role of `NaN`; comparison operators on `NaN` return
  `false`, which the `js...` helper functions reproduce.
* The sparse JavaScript array `iv` is modelled as a `List ℤ` together with
  read/write operations `jsGet`/`jsSet` that return `none` (undefined, hence
  `NaN` after arithmetic) for an out-of-bounds read.
* The mutable instance state is threaded explicitly:
  `RanState` holds `idum`/`iv` (the uniform engine) and `DState` additionally
  holds `normVal`, `u`, `s` used by the normal transform.
-/

namespace Deviates

/-! ### Class constants (source lines 31-39)

`NDIV = 1 + (IM - 1)/NTAB` is computed in float64.  `(IM-1)/NTAB =
2147483646/32 = 67108863.9375` and `NDIV = 67108864.9375 = 1073741839/16`
are both exactly representable (31 significand bits), so `NDIV` is the exact
rational `1073741839/16`; see `ndivIndex` below for the floor division. -/

def IA : ℤ := 16807

def IM : ℤ := 2147483647

def AM : ℚ := 1 / 2147483647

def IQ : ℤ := 127773

def IR : ℤ := 2836

def NTAB : ℕ := 32

def EPS : ℚ := 12 / 100000000

def RNMX : ℚ := 1 - EPS

/-! ### JavaScript helpers -/

/-- JS `isNaN(x)` for a possibly-NaN number (`none` = `NaN`). -/
def jsIsNaN (x : Option ℤ) : Bool := x.isNone

/-- JS `x < 1` for a possibly-NaN number: any comparison with `NaN` is
`false`. -/
def jsLtOne : Option ℤ → Bool
  | none => false
  | some v => decide (v < 1)

/-- JS array read `l[j]`: `undefined` (`none`) when the index is negative or
past the end.  (Array holes never survive to a read in any execution modelled
below; see `initLoop`.) -/
def jsGet (l : List ℤ) (j : ℤ) : Option ℤ :=
  if h : 0 ≤ j ∧ j.toNat < l.length then some (l.get ⟨j.toNat, h.2⟩) else none

/-- JS array write `l[j] = v` for a non-negative index: in-bounds writes
replace the element, a write one-or-more slots past the end extends the array
(holes, which arise only transiently during table initialization and are
always overwritten before being read, are padded with 0). -/
def jsSet (l : List ℤ) (j : ℕ) (v : ℤ) : List ℤ :=
  if j < l.length then l.set j v
  else l ++ List.replicate (j - l.length) 0 ++ [v]

/-- JS array write with a possibly negative index: a negative index sets a
non-index property and leaves the array contents unchanged. -/
def jsSetI (l : List ℤ) (j : ℤ) (v : ℤ) : List ℤ :=
  if j < 0 then l else jsSet l j.toNat v

/-! ### The Schrage recurrence (source lines 89-94 and 104-109) -/

/-- One application of the Schrage-factorized multiplicative recurrence:
`k = Math.floor(idum/IQ); idum = IA*(idum - k*IQ) - IR*k;
if (idum < 0) idum += IM`.  `Math.floor` of a real quotient is `Int.fdiv`.
All intermediate values stay far inside the float64-exact integer range, so
integer arithmetic is exact. -/
def schrage (x : ℤ) : ℤ :=
  let k := Int.fdiv x IQ
  let v := IA * (x - k * IQ) - IR * k
  if v < 0 then v + IM else v

/-- `n`-fold iteration of `schrage`. -/
def sIter : ℕ → ℤ → ℤ
  | 0, x => x
  | n + 1, x => sIter n (schrage x)

/-- Line 85: `this.idum = isNaN(start) && start < 1 ? 1 : start` for a
possibly-NaN starting value (`none` = `NaN`). -/
def seedAdopt (start : Option ℤ) : Option ℤ :=
  if jsIsNaN start && jsLtOne start then some 1 else start

/-- Line 85 specialized to an integer (non-NaN) starting value. -/
def adoptedSeed (start : ℤ) : ℤ :=
  if jsIsNaN (some start) && jsLtOne (some start) then 1 else start

/-! ### The warm-up loop (source lines 87-99) -/

/-- The initialization loop `for (j = len; j >= 0; j--) {...}` with
`len = NTAB+7`: the argument `n` is the number of iterations still to run,
so the loop counter of the first iteration performed is `j = n - 1` and
`initLoop (NTAB+7+1) start []` runs the source loop in full.  Each iteration
advances `idum` by `schrage` and, when `j < NTAB`, stores the new `idum` at
table index `j`.  The returned triple is (final `idum`, final table, list of
the successive `idum` values produced, one per recurrence application). -/
def initLoop : ℕ → ℤ → List ℤ → ℤ × List ℤ × List ℤ
  | 0, idum, iv => (idum, iv, [])
  | n + 1, idum, iv =>
    let idum2 := schrage idum
    let iv2 := if n < NTAB then jsSet iv n idum2 else iv
    let r := initLoop n idum2 iv2
    (r.1, r.2.1, idum2 :: r.2.2)

/-- The final warmed-up table: the result of running the full warm-up loop
(lines 87-99) on the cleared array. -/
def ivInit (s : ℤ) : List ℤ := (initLoop (NTAB + 7 + 1) s []).2.1

/-- The final warmed-up seed: the value of `idum` after the warm-up loop. -/
def idumInit (s : ℤ) : ℤ := (initLoop (NTAB + 7 + 1) s []).1

/-! ### The uniform deviate (source lines 73-117) -/

/-- The state held by the uniform engine: the live seed `idum` and the
shuffle table `iv`.  The constructor (lines 53-54) produces `⟨0, []⟩`. -/
structure RanState where
  idum : ℤ
  iv : List ℤ
deriving DecidableEq

theorem RanState.idum_mk (a : ℤ) (l : List ℤ) : (RanState.mk a l).idum = a := rfl

theorem RanState.iv_mk (a : ℤ) (l : List ℤ) : (RanState.mk a l).iv = l := rfl

/-- The clamp of line 115-116: `temp = AM*iy;
return (temp > RNMX) ? RNMX : temp`. -/
def clamp (t : ℚ) : ℚ := if t > RNMX then RNMX else t

/-- `j = Math.floor(iy/NDIV)` with `NDIV = 1073741839/16` exactly, i.e.
`⌊16*iy/1073741839⌋`.  (The float64 division `iy/NDIV` rounds to within
`32*2⁻⁵³` of the exact quotient while the exact quotient is never closer
than `1/1073741839` to a non-attained integer for `|iy| < 2³¹`, so flooring
the float64 quotient and flooring the exact quotient agree on every value
the program produces.) -/
def ndivIndex (iy : ℤ) : ℤ := Int.fdiv (16 * iy) 1073741839

/-- `uniform(start, init)` (source lines 73-117).  Returns the deviate
(`none` = `NaN`) and the updated engine state.

* `init = true`: reset the table (line 83), adopt the seed (line 85, the
  identity on integers by `adoptedSeed_eq`), run the warm-up loop
  (lines 87-99), and set the local carry `iy = iv[0]` (line 101).
* `init = false`: the local carry `iy` keeps its initial value 0 (line 78);
  the static carry of the reference `ran1` does not exist in this code.
* Common tail (lines 104-116): advance `idum` once, `j = floor(iy/NDIV)`,
  read `iy = iv[j]`, write `iv[j] = idum`, return the clamped `AM*iy`
  (`NaN`, i.e. `none`, when the read was `undefined`).

The first `match` branch (`iy0 = none`) is unreachable: on the `init` path
the freshly built table always has `NTAB` entries (`ivInit_length`). -/
def uniform (st : RanState) (start : ℤ) (init : Bool) : Option ℚ × RanState :=
  let st1 : RanState :=
    if init then ⟨idumInit (adoptedSeed start), ivInit (adoptedSeed start)⟩
    else st
  let iy0 : Option ℤ := if init then jsGet st1.iv 0 else some 0
  let idum2 : ℤ := schrage st1.idum
  match iy0 with
  | none => (none, ⟨idum2, st1.iv⟩)
  | some iy =>
    let j : ℤ := ndivIndex iy
    let iyRead : Option ℤ := jsGet st1.iv j
    let iv2 : List ℤ := jsSetI st1.iv j idum2
    match iyRead with
    | none => (none, ⟨idum2, iv2⟩)
    | some y => (some (clamp (AM * y)), ⟨idum2, iv2⟩)

/-- `n` successive continuation calls `uniform(start, false)`, returning the
list of outputs and the final state. -/
def contRun : ℕ → RanState → ℤ → List (Option ℚ) × RanState
  | 0, st, _ => ([], st)
  | n + 1, st, s =>
    let r := uniform st s false
    let rest := contRun n r.2 s
    (r.1 :: rest.1, rest.2)

/-- The outputs of an initializing call `uniform(s, true)` followed by `n`
continuation calls `uniform(s, false)`, starting from instance state `st`. -/
def uniformSeq (st : RanState) (s : ℤ) (n : ℕ) : List (Option ℚ) :=
  let r := uniform st s true
  r.1 :: (contRun n r.2 s).1

/-! ### Arithmetic facts about the Schrage step -/

/-- `inRange x` says `x` is a legitimate live LCG state: `1 ≤ x ≤ IM - 1`. -/
def inRange (x : ℤ) : Prop := 1 ≤ x ∧ x ≤ IM - 1

instance (x : ℤ) : Decidable (inRange x) := by unfold inRange; infer_instance

/-- On `[1, IM-1]` the Schrage step computes the multiplicative
congruential step `(IA * x) % IM` without overflow. -/
theorem schrage_eq {x : ℤ} (hx : inRange x) : schrage x = (IA * x) % IM := by
  obtain ⟨h1, h2⟩ := hx
  unfold schrage
  have hIQ : (0:ℤ) ≤ IQ := by norm_num [IQ]
  rw [Int.fdiv_eq_ediv _ hIQ]
  set k := x / IQ with hk
  have hk0 : 0 ≤ k := Int.ediv_nonneg (by omega) hIQ
  have hkle : k ≤ 16807 := by
    have : x / IQ ≤ (2147483646:ℤ) / 127773 := by
      apply Int.ediv_le_ediv (by norm_num [IQ])
      simp only [IM] at h2; omega
    simpa [IQ] using this
  have hmd : x % IQ = x - IQ * k := by rw [Int.emod_def, hk]
  have hr0 : 0 ≤ x - k * IQ := by
    have := Int.emod_nonneg x (by norm_num [IQ] : (IQ:ℤ) ≠ 0)
    rw [hmd] at this; linarith [this, mul_comm k IQ]
  have hr1 : x - k * IQ < IQ := by
    have := Int.emod_lt_of_pos x (by norm_num [IQ] : (0:ℤ) < IQ)
    rw [hmd] at this; have := mul_comm k IQ; omega
  set v := IA * (x - k * IQ) - IR * k with hv
  have hkey : IA * x = IM * k + v := by
    have hAQ : IA * IQ = IM - IR := by norm_num [IA, IQ, IM, IR]
    rw [hv]; nlinarith [hAQ]
  have hvlow : -IM < v := by
    have h5 : IR * k ≤ IR * 16807 :=
      mul_le_mul_of_nonneg_left hkle (by norm_num [IR])
    have h3 : 0 ≤ IA * (x - k * IQ) :=
      mul_nonneg (by norm_num [IA]) hr0
    simp only [IR, IM] at *; omega
  have hvhigh : v < IM := by
    have h5 : IA * (x - k * IQ) ≤ IA * (IQ - 1) :=
      mul_le_mul_of_nonneg_left (by omega) (by norm_num [IA])
    have h4 : 0 ≤ IR * k := mul_nonneg (by norm_num [IR]) hk0
    simp only [IA, IQ, IR, IM] at *; omega
  have hmod : (IA * x) % IM = v % IM := by
    rw [hkey, add_comm, Int.add_mul_emod_self_left]
  by_cases hneg : v < 0
  · rw [if_pos hneg, hmod]
    have h5 : v % IM = (v + IM) % IM := by
      conv_rhs => rw [show v + IM = v + IM * 1 by ring]
      rw [Int.add_mul_emod_self_left]
    rw [h5, Int.emod_eq_of_lt (by omega) (by omega)]
  · rw [if_neg hneg, hmod, Int.emod_eq_of_lt (by omega) hvhigh]

/-- The modulus never divides `IA * x` for a live state `x`, because
`gcd (IM, IA) = 1` and `0 < x < IM`. -/
theorem im_not_dvd_mul {x : ℤ} (hx : inRange x) : ¬ (IM ∣ IA * x) := by
  obtain ⟨h1, h2⟩ := hx
  intro hdvd
  have hc : IsCoprime IM IA := by
    rw [Int.isCoprime_iff_gcd_eq_one]; decide
  have hdx : IM ∣ x := hc.dvd_of_dvd_mul_left hdvd
  have hle : IM ≤ x := Int.le_of_dvd (by omega) hdx
  simp only [IM] at hle h2
  omega

/-- The Schrage step keeps a live state live. -/
theorem schrage_inRange {x : ℤ} (hx : inRange x) : inRange (schrage x) := by
  rw [schrage_eq hx]
  have hIM : (0:ℤ) < IM := by norm_num [IM]
  have h0 := Int.emod_nonneg (IA * x) (by norm_num [IM] : (IM:ℤ) ≠ 0)
  have h1 := Int.emod_lt_of_pos (IA * x) hIM
  have hne : (IA * x) % IM ≠ 0 := by
    intro h
    exact im_not_dvd_mul hx (Int.dvd_iff_emod_eq_zero.mpr h)
  exact ⟨by omega, by omega⟩

/-- Iterating the Schrage step keeps a live state live. -/
theorem sIter_inRange {x : ℤ} (hx : inRange x) (n : ℕ) : inRange (sIter n x) := by
  induction n generalizing x with
  | zero => exact hx
  | succ n ih => exact ih (schrage_inRange hx)

theorem sIter_add (a b : ℕ) (x : ℤ) : sIter a (sIter b x) = sIter (a + b) x := by
  induction b generalizing x with
  | zero => rfl
  | succ b ih =>
    show sIter a (sIter b (schrage x)) = sIter (a + b) (schrage x)
    exact ih (schrage x)

/-! ### Characterization of the warm-up loop -/

theorem initLoop_fst (n : ℕ) (x : ℤ) (iv : List ℤ) :
    (initLoop n x iv).1 = sIter n x := by
  induction n generalizing x iv with
  | zero => rfl
  | succ n ih => exact ih (schrage x) _

theorem initLoop_seeds_length (n : ℕ) (x : ℤ) (iv : List ℤ) :
    (initLoop n x iv).2.2.length = n := by
  induction n generalizing x iv with
  | zero => rfl
  | succ n ih => simpa [initLoop] using ih (schrage x) _

/-- The list of values produced by the warm-up loop consists of the
successive Schrage iterates of the starting seed, in order. -/
theorem initLoop_seeds_get (n : ℕ) (x : ℤ) (iv : List ℤ) (i : ℕ) (hi : i < n) :
    (initLoop n x iv).2.2[i]? = some (sIter (i + 1) x) := by
  induction n generalizing x iv i with
  | zero => omega
  | succ n ih =>
    cases i with
    | zero => simp [initLoop, sIter]
    | succ i =>
      have := ih (schrage x) (if n < NTAB then jsSet iv n (schrage x) else iv) i (by omega)
      simp only [initLoop]
      rw [List.getElem?_cons_succ]
      exact this

/-- Writing phase: once only `n ≤ NTAB` iterations remain and the table
already has its full `NTAB` entries, iteration with counter `j` stores the
`(n-j)`-th following Schrage iterate at index `j`. -/
theorem initLoop_tbl_write (n : ℕ) (hn : n ≤ NTAB) :
    ∀ (x : ℤ) (iv : List ℤ), iv.length = NTAB →
    ((initLoop n x iv).2.1.length = NTAB ∧
      ∀ j, j < NTAB →
        (initLoop n x iv).2.1[j]? =
          if j < n then some (sIter (n - j) x) else iv[j]?) := by
  induction n with
  | zero =>
    intro x iv hlen
    exact ⟨hlen, fun j _ => by simp [initLoop]⟩
  | succ n ih =>
    intro x iv hlen
    have hnN : n < NTAB := by omega
    have hset : (if n < NTAB then jsSet iv n (schrage x) else iv) =
        iv.set n (schrage x) := by
      rw [if_pos hnN]; unfold jsSet; rw [if_pos (by omega)]
    have hlen2 : (iv.set n (schrage x)).length = NTAB := by simpa using hlen
    obtain ⟨ihl, ihg⟩ := ih (by omega) (schrage x) (iv.set n (schrage x)) hlen2
    constructor
    · simpa [initLoop, hset] using ihl
    · intro j hj
      have hstep : (initLoop (n + 1) x iv).2.1 =
          (initLoop n (schrage x) (iv.set n (schrage x))).2.1 := by
        simp [initLoop, hset]
      rw [hstep, ihg j hj]
      rcases lt_trichotomy j n with h | h | h
      · rw [if_pos h, if_pos (by omega)]
        have harith : n + 1 - j = (n - j) + 1 := by omega
        rw [harith]
        rfl
      · subst h
        rw [if_neg (by omega), if_pos (by omega)]
        have : j + 1 - j = 1 := by omega
        rw [List.getElem?_set_self (by omega), this]
        rfl
      · rw [if_neg (by omega), if_neg (by omega), List.getElem?_set_ne (by omega)]

/-- Unfolding one iteration of the warm-up loop (table component). -/
theorem initLoop_snd_succ (n : ℕ) (x : ℤ) (iv : List ℤ) :
    (initLoop (n + 1) x iv).2.1 =
      (initLoop n (schrage x) (if n < NTAB then jsSet iv n (schrage x) else iv)).2.1 := rfl

/-- Skipping phase: the first iterations (counters `j ≥ NTAB`) only advance
the seed. -/
theorem initLoop_tbl_skip (m : ℕ) (x : ℤ) (iv : List ℤ) :
    (initLoop (NTAB + m) x iv).2.1 = (initLoop NTAB (sIter m x) iv).2.1 := by
  induction m generalizing x with
  | zero => rfl
  | succ m ih =>
    have h1 : NTAB + (m + 1) = (NTAB + m) + 1 := rfl
    rw [h1]
    have h2 : (initLoop ((NTAB + m) + 1) x iv).2.1 =
        (initLoop (NTAB + m) (schrage x) iv).2.1 := by
      simp [initLoop, if_neg (by omega : ¬ (NTAB + m < NTAB))]
    rw [h2, ih (schrage x)]
    rfl

theorem idumInit_eq (s : ℤ) : idumInit s = sIter 40 s := by
  have := initLoop_fst (NTAB + 7 + 1) s []
  simpa [idumInit, NTAB] using this

/-- The 32-entry table built from the empty array: index `j` receives the
`(40 - j)`-th Schrage iterate of the seed; table slot 0 therefore equals the
final warmed-up seed. -/
theorem ivInit_spec (s : ℤ) :
    (ivInit s).length = NTAB ∧
      ∀ j, j < NTAB → (ivInit s)[j]? = some (sIter (40 - j) s) := by
  have hskip : ivInit s = (initLoop NTAB (sIter 8 s) []).2.1 := by
    have := initLoop_tbl_skip 8 s []
    simpa [ivInit, NTAB] using this
  have hstep : (initLoop NTAB (sIter 8 s) []).2.1 =
      (initLoop 31 (schrage (sIter 8 s))
        (List.replicate 31 0 ++ [schrage (sIter 8 s)])).2.1 := by
    rw [show NTAB = 31 + 1 from rfl, initLoop_snd_succ]
    norm_num [NTAB, jsSet]
  have hlen : (List.replicate 31 0 ++ [schrage (sIter 8 s)]).length = NTAB := by
    simp [NTAB]
  obtain ⟨hl, hg⟩ := initLoop_tbl_write 31 (by norm_num [NTAB])
    (schrage (sIter 8 s)) _ hlen
  constructor
  · rw [hskip, hstep]; exact hl
  · intro j hj
    have hj32 : j < 32 := by simpa [NTAB] using hj
    rw [hskip, hstep, hg j hj]
    by_cases h31 : j < 31
    · rw [if_pos h31]
      have h1 : sIter (31 - j) (schrage (sIter 8 s)) = sIter (31 - j + 1) (sIter 8 s) := rfl
      have harith : 40 - j = 31 - j + 1 + 8 := by omega
      rw [h1, sIter_add, harith]
    · have hj31 : j = 31 := by omega
      subst hj31
      rw [if_neg (by omega)]
      have h2 : (List.replicate 31 (0:ℤ) ++ [schrage (sIter 8 s)])[31]? =
          some (schrage (sIter 8 s)) := by
        rw [List.getElem?_append_right (by simp)]
        simp
      rw [h2]
      have h3 : schrage (sIter 8 s) = sIter 9 s := sIter_add 1 8 s
      rw [h3]

/-! ### The engine invariant -/

/-- Invariant of an initialized engine: a live seed and a full `NTAB`-entry
table of live values. -/
def Inv (st : RanState) : Prop :=
  inRange st.idum ∧ st.iv.length = NTAB ∧ ∀ y ∈ st.iv, inRange y

instance (st : RanState) : Decidable (Inv st) := by unfold Inv; infer_instance

theorem adoptedSeed_eq (s : ℤ) : adoptedSeed s = s := by
  simp [adoptedSeed, jsIsNaN]

theorem ivInit_mem {s : ℤ} (hs : inRange s) : ∀ y ∈ ivInit s, inRange y := by
  intro y hy
  obtain ⟨hl, hg⟩ := ivInit_spec s
  rw [List.mem_iff_getElem?] at hy
  obtain ⟨i, hi⟩ := hy
  have hilt : i < NTAB := by
    rcases List.getElem?_eq_some.mp hi with ⟨hlt, -⟩
    omega
  have := hg i hilt
  rw [this] at hi
  obtain rfl : sIter (40 - i) s = y := by injection hi
  exact sIter_inRange hs _

theorem jsGet_nonneg (l : List ℤ) (j : ℤ) (hj : 0 ≤ j) :
    jsGet l j = l[j.toNat]? := by
  unfold jsGet
  by_cases h : j.toNat < l.length
  · rw [dif_pos ⟨hj, h⟩, List.getElem?_eq_getElem h]
    rfl
  · rw [dif_neg (by tauto), List.getElem?_eq_none (by omega)]

theorem ndivIndex_bounds {y : ℤ} (hy : inRange y) :
    0 ≤ ndivIndex y ∧ ndivIndex y < 32 := by
  obtain ⟨h1, h2⟩ := hy
  simp only [IM] at h2
  unfold ndivIndex
  rw [Int.fdiv_eq_ediv _ (by norm_num)]
  constructor
  · exact Int.ediv_nonneg (by omega) (by norm_num)
  · rw [Int.ediv_lt_iff_lt_mul (by norm_num)]
    omega

theorem jsSet_inv {l : List ℤ} {v : ℤ} (hl : l.length = NTAB) (hv : inRange v)
    (hall : ∀ y ∈ l, inRange y) {j : ℕ} (hj : j < NTAB) :
    (jsSet l j v).length = NTAB ∧ ∀ y ∈ jsSet l j v, inRange y := by
  have hlt : j < l.length := by omega
  unfold jsSet
  rw [if_pos hlt]
  refine ⟨by simpa using hl, ?_⟩
  intro y hy
  rcases List.mem_or_eq_of_mem_set hy with h | h
  · exact hall y h
  · exact h ▸ hv

/-- The output clamp sends a live table value into `(0, RNMX]` and never
produces exactly `1/2` (the modulus is odd). -/
theorem clamp_spec {y : ℤ} (hy : inRange y) :
    0 < clamp (AM * y) ∧ clamp (AM * y) ≤ RNMX ∧ clamp (AM * y) ≠ 1 / 2 := by
  obtain ⟨h1, h2⟩ := hy
  simp only [IM] at h2
  have hy1 : (1:ℚ) ≤ (y:ℚ) := by exact_mod_cast h1
  have hpos : 0 < AM * (y:ℚ) := by
    apply mul_pos (by norm_num [AM])
    linarith
  unfold clamp
  by_cases hcl : AM * (y:ℚ) > RNMX
  · rw [if_pos hcl]
    norm_num [RNMX, EPS]
  · rw [if_neg hcl]
    push_neg at hcl
    refine ⟨hpos, hcl, ?_⟩
    intro h
    have h3 : (y:ℚ) = 2147483647 / 2 := by
      have : AM * (y:ℚ) = 1 / 2 := h
      rw [AM] at this
      field_simp at this
      linarith
    have h4 : (y * 2 : ℤ) = 2147483647 := by
      have := h3
      field_simp at this
      exact_mod_cast this
    omega

/-- Every continuation call (`init = false`) reads and writes table slot 0:
the local carry `iy` is 0, so `j = floor(0/NDIV) = 0`, the deviate comes from
`iv[0]` and the advanced seed is stored back into `iv[0]`.  This holds for
every state and start value. -/
theorem uniform_false_eq (st : RanState) (s : ℤ) :
    uniform st s false =
      ((jsGet st.iv 0).map (fun (y : ℤ) => clamp (AM * (y:ℚ))),
        ⟨schrage st.idum, jsSetI st.iv 0 (schrage st.idum)⟩) := by
  have h0 : ndivIndex 0 = 0 := by decide
  cases hg : jsGet st.iv 0 with
  | none => simp [uniform, h0, hg]
  | some y => simp [uniform, h0, hg]

/-- The initializing call in closed form: the adopted seed is `start` itself
(`adoptedSeed_eq`), the table is the warmed-up table, the carry is seeded
from table slot 0 (which holds the warmed-up seed), and the common tail then
runs on the freshly built state. -/
theorem uniform_true_eq (st : RanState) (s : ℤ) :
    uniform st s true =
      ((jsGet (ivInit s) (ndivIndex (idumInit s))).map (fun (y : ℤ) => clamp (AM * (y:ℚ))),
        ⟨schrage (idumInit s),
          jsSetI (ivInit s) (ndivIndex (idumInit s)) (schrage (idumInit s))⟩) := by
  have h0 : jsGet (ivInit s) 0 = some (idumInit s) := by
    rw [jsGet_nonneg _ _ le_rfl]
    have := (ivInit_spec s).2 0 (by norm_num [NTAB])
    rw [idumInit_eq]
    simpa using this
  cases hg : jsGet (ivInit s) (ndivIndex (idumInit s)) with
  | none => simp [uniform, adoptedSeed_eq, h0, hg]
  | some y => simp [uniform, adoptedSeed_eq, h0, hg]

/-- Output component of the initializing call. -/
theorem uniform_true_fst (st : RanState) (s : ℤ) :
    (uniform st s true).1 =
      (jsGet (ivInit s) (ndivIndex (idumInit s))).map
        (fun (y : ℤ) => clamp (AM * (y:ℚ))) := by
  rw [uniform_true_eq]

/-- State component of the initializing call. -/
theorem uniform_true_snd (st : RanState) (s : ℤ) :
    (uniform st s true).2 =
      ⟨schrage (idumInit s),
        jsSetI (ivInit s) (ndivIndex (idumInit s)) (schrage (idumInit s))⟩ := by
  rw [uniform_true_eq]

/-- Output component of a continuation call. -/
theorem uniform_false_fst (st : RanState) (s : ℤ) :
    (uniform st s false).1 =
      (jsGet st.iv 0).map (fun (y : ℤ) => clamp (AM * (y:ℚ))) := by
  rw [uniform_false_eq]

/-- State component of a continuation call. -/
theorem uniform_false_snd (st : RanState) (s : ℤ) :
    (uniform st s false).2 =
      ⟨schrage st.idum, jsSetI st.iv 0 (schrage st.idum)⟩ := by
  rw [uniform_false_eq]

set_option maxRecDepth 4000 in
/-- Output of the initializing call: a deviate in `(0, RNMX]`, never exactly
`1/2`, read from the warmed-up table at index `floor(iv[0]/NDIV)`. -/
theorem uniform_true_out (st : RanState) {s : ℤ} (hs : inRange s) :
    ∃ q : ℚ, (uniform st s true).1 = some q ∧ 0 < q ∧ q ≤ RNMX ∧ q ≠ 1 / 2 := by
  have hidum : inRange (idumInit s) := by
    rw [idumInit_eq]; exact sIter_inRange hs 40
  obtain ⟨hjl, hjh⟩ := ndivIndex_bounds hidum
  obtain ⟨hl, hg⟩ := ivInit_spec s
  have hjn : (ndivIndex (idumInit s)).toNat < NTAB := by
    simp only [NTAB]; omega
  have hread : jsGet (ivInit s) (ndivIndex (idumInit s)) =
      some (sIter (40 - (ndivIndex (idumInit s)).toNat) s) := by
    rw [jsGet_nonneg _ _ hjl]
    exact hg _ hjn
  have hy : inRange (sIter (40 - (ndivIndex (idumInit s)).toNat) s) :=
    sIter_inRange hs _
  obtain ⟨hc1, hc2, hc3⟩ := clamp_spec hy
  rw [uniform_true_fst, hread, Option.map_some']
  exact ⟨_, rfl, hc1, hc2, hc3⟩

set_option maxRecDepth 4000 in
/-- State after the initializing call: the engine invariant holds. -/
theorem uniform_true_inv (st : RanState) {s : ℤ} (hs : inRange s) :
    Inv (uniform st s true).2 := by
  have hidum : inRange (idumInit s) := by
    rw [idumInit_eq]; exact sIter_inRange hs 40
  obtain ⟨hjl, hjh⟩ := ndivIndex_bounds hidum
  obtain ⟨hl, hg⟩ := ivInit_spec s
  have hjn : (ndivIndex (idumInit s)).toNat < NTAB := by
    simp only [NTAB]; omega
  have hS : inRange (schrage (idumInit s)) := schrage_inRange hidum
  have hset : jsSetI (ivInit s) (ndivIndex (idumInit s)) (schrage (idumInit s)) =
      jsSet (ivInit s) (ndivIndex (idumInit s)).toNat (schrage (idumInit s)) := by
    unfold jsSetI
    rw [if_neg (by omega)]
  obtain ⟨hsl, hsm⟩ := jsSet_inv hl hS (ivInit_mem hs) hjn
  rw [uniform_true_snd]
  unfold Inv
  rw [RanState.idum_mk, RanState.iv_mk, hset]
  exact ⟨hS, hsl, hsm⟩

set_option maxRecDepth 4000 in
/-- Output of a continuation call on an invariant state: the deviate is the
clamped `AM * iv[0]`, lies in `(0, RNMX]` and is never exactly `1/2`. -/
theorem uniform_false_out (st : RanState) (s : ℤ) (h : Inv st) :
    ∃ (y : ℤ) (q : ℚ), st.iv[0]? = some y ∧
      (uniform st s false).1 = some q ∧ q = clamp (AM * (y:ℚ)) ∧
      0 < q ∧ q ≤ RNMX ∧ q ≠ 1 / 2 := by
  obtain ⟨hid, hlen, hmem⟩ := h
  have h0 : 0 < st.iv.length := by rw [hlen]; norm_num [NTAB]
  have hy : st.iv[0]? = some (st.iv.get ⟨0, h0⟩) := by
    rw [List.getElem?_eq_getElem h0]
    rfl
  set y := st.iv.get ⟨0, h0⟩ with hydef
  have hyr : inRange y := by
    apply hmem
    exact List.getElem?_mem hy
  obtain ⟨hc1, hc2, hc3⟩ := clamp_spec hyr
  have hread : jsGet st.iv 0 = some y := by
    rw [jsGet_nonneg _ _ le_rfl]
    simpa using hy
  rw [uniform_false_fst, hread, Option.map_some']
  exact ⟨y, _, hy, rfl, rfl, hc1, hc2, hc3⟩

set_option maxRecDepth 4000 in
/-- State after a continuation call: the engine invariant is preserved. -/
theorem uniform_false_inv (st : RanState) (s : ℤ) (h : Inv st) :
    Inv (uniform st s false).2 := by
  obtain ⟨hid, hlen, hmem⟩ := h
  have hS : inRange (schrage st.idum) := schrage_inRange hid
  have hset : jsSetI st.iv 0 (schrage st.idum) =
      jsSet st.iv 0 (schrage st.idum) := by
    unfold jsSetI
    rw [if_neg (by norm_num)]
    rfl
  obtain ⟨hsl, hsm⟩ := jsSet_inv hlen hS hmem (by norm_num [NTAB] : 0 < NTAB)
  rw [uniform_false_snd]
  unfold Inv
  rw [RanState.idum_mk, RanState.iv_mk, hset]
  exact ⟨hS, hsl, hsm⟩

/-! ### Determinism and whole-sequence properties -/

/-- The initializing call depends only on the start value, not on the prior
instance state: line 83 clears the table and line 85 overwrites the seed. -/
theorem uniform_true_state_indep (st st' : RanState) (s : ℤ) :
    uniform st s true = uniform st' s true := by
  rw [uniform_true_eq, uniform_true_eq]

/-- Whole sequences started with the same seed agree regardless of the prior
instance state. -/
theorem uniformSeq_state_indep (st st' : RanState) (s : ℤ) (n : ℕ) :
    uniformSeq st s n = uniformSeq st' s n := by
  simp only [uniformSeq]
  rw [uniform_true_state_indep st st' s]

theorem RNMX_lt_one : RNMX < 1 := by norm_num [RNMX, EPS]

theorem uniformSeq_cons (st : RanState) (s : ℤ) (n : ℕ) :
    uniformSeq st s n =
      (uniform st s true).1 :: (contRun n (uniform st s true).2 s).1 := rfl

/-- Every deviate of a run of continuation calls from an invariant state is a
rational in `(0, RNMX]`. -/
theorem contRun_all (s : ℤ) (n : ℕ) :
    ∀ st : RanState, Inv st → ∀ v ∈ (contRun n st s).1,
      ∃ q : ℚ, v = some q ∧ 0 < q ∧ q ≤ RNMX := by
  induction n with
  | zero => intro st _ v hv; simp [contRun] at hv
  | succ n ih =>
    intro st hInv v hv
    simp only [contRun, List.mem_cons] at hv
    rcases hv with rfl | hv
    · obtain ⟨y, q, -, hq, -, h1, h2, -⟩ := uniform_false_out st s hInv
      exact ⟨q, hq, h1, h2⟩
    · exact ih (uniform st s false).2 (uniform_false_inv st s hInv) v hv

/-- Every deviate of an initializing call followed by continuation calls, for
a live seed, is a rational in `(0, RNMX]`. -/
theorem uniformSeq_all (st : RanState) {s : ℤ} (hs : inRange s) (n : ℕ) :
    ∀ v ∈ uniformSeq st s n, ∃ q : ℚ, v = some q ∧ 0 < q ∧ q ≤ RNMX := by
  intro v hv
  rw [uniformSeq_cons] at hv
  obtain ⟨q, hq, h1, h2, -⟩ := uniform_true_out st hs
  have hInv := uniform_true_inv st hs
  revert hv
  generalize hU : uniform st s true = U
  rw [hU] at hq hInv
  intro hv
  rw [List.mem_cons] at hv
  rcases hv with rfl | hv
  · exact ⟨q, hq, h1, h2⟩
  · exact contRun_all s n _ hInv v hv

/-! ### Claim C1: same-seed reproducibility of the uniform engine -/

/-- C1 — confirmed.  For every integer seed `s ≥ 1`, two generator instances
in arbitrary prior states, each running one initializing `uniform(s, true)`
call followed by `n` continuation `uniform(s, false)` calls, produce
element-for-element identical output sequences; in particular the first draw
after re-initializing an advanced instance is bit-identical to the first
draw of a fresh instance.  (The property holds because the initializing call
overwrites the whole engine state.) -/
theorem claim1_same_seed_identical_sequences (s : ℤ) (_hs : 1 ≤ s)
    (st st' : RanState) (n : ℕ) : uniformSeq st s n = uniformSeq st' s n :=
  uniformSeq_state_indep st st' s n

/-- Witness for C1 at seed 1: a fresh instance versus an arbitrarily advanced
instance. -/
theorem claim1_witness :
    (1 : ℤ) ≤ 1 ∧
      uniformSeq ⟨0, []⟩ 1 3 = uniformSeq ⟨987654321, [17, 4]⟩ 1 3 :=
  ⟨le_refl 1, claim1_same_seed_identical_sequences 1 (le_refl 1) _ _ 3⟩

/-! ### Claim C2: the per-call table index and the missing carry -/

set_option maxRecDepth 100000 in
/-- C2 — the code deviates from the claimed (reference `ran1`) behaviour.
The carry `iy` is a function-local variable initialized to 0 on every call
(line 78), not a value persisting between calls; hence on every continuation
call the table index is `floor(0/NDIV) = 0`: the deviate is read from
`iv[0]` and the advanced seed is written to `iv[0]`, for every state and
every start value (first conjunct).  The remaining conjuncts evaluate the
seed-1 run: the initializing call selects index 11 and reads the table value
893351816, so a `ran1`-conforming implementation would persist that carry
and use index `floor(893351816/NDIV) = 13 ≠ 0` on the next call. -/
theorem claim2_continuation_ignores_carry :
    (∀ (st : RanState) (s : ℤ),
      uniform st s false =
        ((jsGet st.iv 0).map (fun (y : ℤ) => clamp (AM * (y:ℚ))),
          ⟨schrage st.idum, jsSetI st.iv 0 (schrage st.idum)⟩)) ∧
    ndivIndex (idumInit 1) = 11 ∧
    jsGet (ivInit 1) (ndivIndex (idumInit 1)) = some 893351816 ∧
    ndivIndex 893351816 = 13 ∧ (13 : ℤ) ≠ 0 := by
  refine ⟨uniform_false_eq, ?_, ?_, by decide, by decide⟩
  · decide
  · decide

/-! ### Claim C3: the warm-up iteration count -/

/-- Counterexample to C3 as stated: at seed 1 the warm-up loop applies the
Schrage recurrence 40 times (`for (j = NTAB+7; j >= 0; j--)` runs
`NTAB + 8` iterations), not `TABLE_SIZE + 7 = 39` times. -/
theorem claim3_counterexample :
    (initLoop (NTAB + 7 + 1) 1 []).2.2.length = 40 ∧ (40 : ℕ) ≠ 39 := by
  constructor
  · have := initLoop_seeds_length (NTAB + 7 + 1) 1 []
    simpa [NTAB] using this
  · decide

/-- C3 — amended.  On an initializing call the warm-up recurrence runs
exactly `TABLE_SIZE + 8 = 40` times (producing the iterates
`sIter 1 s, …, sIter 40 s`), the 32-entry shuffle table is filled from the
tail 32 iterations (`iv[j] = sIter (40 - j) s`), and the carry `iy` is
seeded from the first table slot, which holds the final warmed-up seed. -/
theorem claim3_warmup_amended (s : ℤ) :
    (initLoop (NTAB + 7 + 1) s []).2.2.length = NTAB + 8 ∧
    (∀ i, i < NTAB + 8 →
      (initLoop (NTAB + 7 + 1) s []).2.2[i]? = some (sIter (i + 1) s)) ∧
    (ivInit s).length = NTAB ∧
    (∀ j, j < NTAB → (ivInit s)[j]? = some (sIter (40 - j) s)) ∧
    jsGet (ivInit s) 0 = some (idumInit s) := by
  obtain ⟨hl, hg⟩ := ivInit_spec s
  refine ⟨?_, ?_, hl, hg, ?_⟩
  · rw [initLoop_seeds_length]
  · intro i hi
    exact initLoop_seeds_get _ s [] i hi
  · rw [jsGet_nonneg _ _ le_rfl]
    have := hg 0 (by norm_num [NTAB])
    rw [idumInit_eq]
    simpa using this

/-- Witness for the amended C3 at seed 1 and loop iteration 0. -/
theorem claim3_witness :
    (0 : ℕ) < NTAB + 8 ∧
      (initLoop (NTAB + 7 + 1) 1 []).2.2[0]? = some (sIter 1 1) :=
  ⟨by norm_num [NTAB], (claim3_warmup_amended 1).2.1 0 (by norm_num [NTAB])⟩

/-! ### Claim C4: the range of the uniform deviate -/

/-- C4 — amended.  For a seed `1 ≤ s ≤ IM - 2 = 2147483646`, every value the
engine returns (the initializing call and all continuation calls) is a
rational `q` with `0 < q ≤ RNMX < 1`, hence inside the open interval
`(0, 1)`.  (As stated the claim also admits the seed `2147483647 = IM`,
where the output is constantly 0; see `claim4_counterexample`.) -/
theorem claim4_uniform_in_unit_interval (st : RanState) (s : ℤ)
    (h1 : 1 ≤ s) (h2 : s ≤ 2147483646) (n : ℕ) :
    ∀ v ∈ uniformSeq st s n,
      ∃ q : ℚ, v = some q ∧ 0 < q ∧ q ≤ RNMX ∧ q < 1 := by
  intro v hv
  have hs : inRange s := ⟨h1, by simp only [IM]; omega⟩
  obtain ⟨q, hq, hq1, hq2⟩ := uniformSeq_all st hs n v hv
  exact ⟨q, hq, hq1, hq2, lt_of_le_of_lt hq2 RNMX_lt_one⟩

/-- Witness for the amended C4: the first draw at seed 1. -/
theorem claim4_witness :
    ((1:ℤ) ≤ 1 ∧ (1:ℤ) ≤ 2147483646) ∧
      ∃ q : ℚ, (uniform ⟨0, []⟩ 1 true).1 = some q ∧
        0 < q ∧ q ≤ RNMX ∧ q < 1 := by
  refine ⟨⟨le_refl 1, by norm_num⟩, ?_⟩
  have hmem : (uniform ⟨0, []⟩ 1 true).1 ∈ uniformSeq ⟨0, []⟩ 1 0 := by
    rw [uniformSeq_cons]
    exact List.mem_cons_self _ _
  obtain ⟨q, hq, h1, h2, h3⟩ := claim4_uniform_in_unit_interval ⟨0, []⟩ 1
    (le_refl 1) (by norm_num) 0 _ hmem
  exact ⟨q, hq, h1, h2, h3⟩

set_option maxRecDepth 100000 in
/-- Counterexample to C4 as stated: the integer seed `2147483647 ≥ 1` is a
fixed point sending the recurrence to 0 (Schrage maps it to `0`), so the
initializing call returns exactly 0, which lies outside `(0, 1)`. -/
theorem claim4_counterexample :
    (1 : ℤ) ≤ 2147483647 ∧
      (uniform ⟨0, []⟩ 2147483647 true).1 = some (clamp (AM * ((0:ℤ):ℚ))) ∧
      clamp (AM * ((0:ℤ):ℚ)) = 0 ∧ ¬ (0 < (0:ℚ)) := by
  refine ⟨by norm_num, ?_, ?_, by norm_num⟩
  · rw [uniform_true_fst]
    have hr : jsGet (ivInit 2147483647) (ndivIndex (idumInit 2147483647)) =
        some 0 := by decide
    rw [hr, Option.map_some']
  · norm_num [clamp, AM, RNMX, EPS]

/-! ### Claim C5: degenerate seeds are not substituted -/

set_option maxRecDepth 100000 in
/-- C5 — the code never substitutes 1.  Line 85 reads
`isNaN(start) && start < 1 ? 1 : start`: for a `NaN` start the second
conjunct is `NaN < 1 = false`, for a numeric start the first conjunct is
`false`, so the conditional is dead code and the seed is adopted unchanged
(`seedAdopt` is the identity).  In particular start `0` is adopted as 0 and
sends the whole engine to the fixed point 0: the uniform output becomes the
constant 0, outside `(0, 1)`. -/
theorem claim5_seed_not_normalized :
    seedAdopt (some 0) = some 0 ∧ seedAdopt (some 0) ≠ some 1 ∧
    seedAdopt none = none ∧ seedAdopt (some (-5)) = some (-5) ∧
    (∀ x : Option ℤ, seedAdopt x = x) ∧
    adoptedSeed 0 = 0 ∧
    (uniform ⟨0, []⟩ 0 true).1 = some (clamp (AM * ((0:ℤ):ℚ))) ∧
    clamp (AM * ((0:ℤ):ℚ)) = 0 := by
  refine ⟨by decide, by decide, by decide, by decide, ?_, by decide, ?_, ?_⟩
  · intro x
    cases x <;> simp [seedAdopt, jsIsNaN, jsLtOne]
  · rw [uniform_true_fst]
    have hr : jsGet (ivInit 0) (ndivIndex (idumInit 0)) = some 0 := by decide
    rw [hr, Option.map_some']
  · norm_num [clamp, AM, RNMX, EPS]

/-! ### Claim C10: a continuation call before any initialization -/

/-- C10 — confirmed.  On a freshly constructed instance
(`idum = 0`, `iv = []`, lines 53-54) a call `uniform(start, false)` computes
`j = 0` and reads `iv[0]` from the still-empty table; the read is
`undefined`, so the returned deviate is `NaN` (modelled as `none`) rather
than a number in `(0, 1)`, for every start value. -/
theorem claim10_uninitialized_returns_nan (start : ℤ) :
    (uniform ⟨0, []⟩ start false).1 = none := by
  rw [uniform_false_fst]
  simp [jsGet]

/-! ### The normal deviate (source lines 152-186)

The full instance state adds to the engine the one-slot Box-Muller cache
`normVal` (line 43, constructor value 0) and the adopted distribution
parameters `u` (mean) and `s` (standard deviation).  `normVal` is modelled
as `ℝ` because the cached value `v1*fac` is transcendental; `u` and `s` stay
rational (their values come from caller-supplied parameters). -/

structure DState where
  ran : RanState
  normVal : ℝ
  u : ℚ
  s : ℚ

theorem dstate_ran_mk (r : RanState) (n : ℝ) (a b : ℚ) :
    (DState.mk r n a b).ran = r := rfl

theorem dstate_normVal_mk (r : RanState) (n : ℝ) (a b : ℚ) :
    (DState.mk r n a b).normVal = n := rfl

theorem dstate_u_mk (r : RanState) (n : ℝ) (a b : ℚ) :
    (DState.mk r n a b).u = a := rfl

theorem dstate_s_mk (r : RanState) (n : ℝ) (a b : ℚ) :
    (DState.mk r n a b).s = b := rfl

/-- The Box-Muller pair rejection loop (lines 167-172): draw `v1 = 2u₁-1`
and `v2 = 2u₂-1` from two `uniform` calls (each made with the caller's
`init` flag, exactly as in the source) and retry while
`rsq = v1*v1 + v2*v2 >= 1 || rsq === 0`.  Fueled: `none` models running out
of fuel, or a `NaN` draw (which cannot occur on an initialized engine). -/
def boxMuller : ℕ → RanState → ℤ → Bool → Option (ℚ × ℚ × RanState)
  | 0, _, _, _ => none
  | fuel + 1, ran, start, init =>
    let r1 := uniform ran start init
    match r1.1 with
    | none => none
    | some q1 =>
      let r2 := uniform r1.2 start init
      match r2.1 with
      | none => none
      | some q2 =>
        let v1 := 2 * q1 - 1
        let v2 := 2 * q2 - 1
        if 1 ≤ v1 * v1 + v2 * v2 ∨ v1 * v1 + v2 * v2 = 0 then
          boxMuller fuel r2.2 start init
        else some (v1, v2, r2.2)

/-- `fac = Math.sqrt(-2.0*Math.log(rsq)/rsq)` (line 174). -/
noncomputable def bmFac (v1 v2 : ℚ) : ℝ :=
  Real.sqrt (-2 * Real.log ((v1:ℝ) * v1 + (v2:ℝ) * v2) /
    ((v1:ℝ) * v1 + (v2:ℝ) * v2))

/-- `normal(start, mu, sig, init)` (lines 152-186) for numeric (non-NaN)
`mu`/`sig`; the `NaN` branches of the parameter adoption on lines 161-162
are embedded separately as `adoptMean`/`adoptStd` below.  On `init`, adopt
`u = mu < 0 ? 0 : mu` and `s = sig > 0 ? sig : 1` — note that `init` does
NOT clear `normVal`.  If the cache holds the sentinel `0.0`, draw an
accepted Box-Muller pair, return `u + s*v2*fac` and cache `v1*fac`;
otherwise consume the cache: return `u + s*normVal`, set `normVal = 0`, and
leave the engine state untouched (no uniform call is made). -/
noncomputable def normal (fuel : ℕ) (st : DState) (start : ℤ) (mu sig : ℚ)
    (init : Bool) : Option (ℝ × DState) :=
  let st1 : DState :=
    if init then
      { st with u := if mu < 0 then 0 else mu, s := if 0 < sig then sig else 1 }
    else st
  if st1.normVal = 0 then
    (boxMuller fuel st1.ran start init).map (fun p =>
      ((st1.u : ℝ) + (st1.s : ℝ) * (p.2.1 : ℝ) * bmFac p.1 p.2.1,
        ⟨p.2.2, (p.1 : ℝ) * bmFac p.1 p.2.1, st1.u, st1.s⟩))
  else
    some ((st1.u : ℝ) + (st1.s : ℝ) * st1.normVal, ⟨st1.ran, 0, st1.u, st1.s⟩)

/-! ### Parameter adoption with NaN (lines 161-162, repeated verbatim on
lines 254-255 of `logistic`) -/

/-- JS `isNaN` for a possibly-NaN rational (`none` = `NaN`). -/
def jsIsNaNQ (x : Option ℚ) : Bool := x.isNone

/-- JS `x < 0`: false for `NaN`. -/
def jsLtZeroQ : Option ℚ → Bool
  | none => false
  | some v => decide (v < 0)

/-- JS `x > 0`: false for `NaN`. -/
def jsGtZeroQ : Option ℚ → Bool
  | none => false
  | some v => decide (0 < v)

/-- Line 161 (= line 254): `this.u = isNaN(mu) || mu < 0 ? 0.0 : mu`. -/
def adoptMean (mu : Option ℚ) : Option ℚ :=
  if jsIsNaNQ mu || jsLtZeroQ mu then some 0 else mu

/-- Line 162 (= line 255): `this.s = isNaN(sig) || sig > 0 ? sig : 1.0`.
Note the `isNaN(sig)` disjunct selects `sig` itself, so a `NaN` standard
deviation is adopted as `NaN`. -/
def adoptStd (sig : Option ℚ) : Option ℚ :=
  if jsIsNaNQ sig || jsGtZeroQ sig then sig else some 1

/-- An accepted Box-Muller pair drawn from an invariant engine: `v1 ≠ 0`
(no uniform draw equals exactly `1/2`), the squared radius lies in `(0, 1)`,
and the engine invariant is preserved. -/
theorem boxMuller_spec (start : ℤ) (fuel : ℕ) :
    ∀ ran : RanState, Inv ran →
    ∀ v1 v2 ran2, boxMuller fuel ran start false = some (v1, v2, ran2) →
      v1 ≠ 0 ∧ v1 * v1 + v2 * v2 ≠ 0 ∧ v1 * v1 + v2 * v2 < 1 ∧ Inv ran2 := by
  induction fuel with
  | zero =>
    intro ran _ v1 v2 ran2 h
    simp [boxMuller] at h
  | succ fuel ih =>
    intro ran hInv v1 v2 ran2 h
    obtain ⟨y1, q1, -, hq1, -, -, -, hne1⟩ := uniform_false_out ran start hInv
    have hI1 : Inv (uniform ran start false).2 := uniform_false_inv ran start hInv
    obtain ⟨y2, q2, -, hq2, -, -, -, hne2⟩ :=
      uniform_false_out (uniform ran start false).2 start hI1
    have hI2 : Inv (uniform (uniform ran start false).2 start false).2 :=
      uniform_false_inv _ start hI1
    simp only [boxMuller, hq1, hq2] at h
    by_cases hc : 1 ≤ (2*q1-1) * (2*q1-1) + (2*q2-1) * (2*q2-1) ∨
        (2*q1-1) * (2*q1-1) + (2*q2-1) * (2*q2-1) = 0
    · rw [if_pos hc] at h
      exact ih _ hI2 v1 v2 ran2 h
    · rw [if_neg hc] at h
      push_neg at hc
      obtain ⟨hlt, hne0⟩ := hc
      rw [Option.some_inj] at h
      obtain ⟨h1, h2, h3⟩ : 2*q1-1 = v1 ∧ 2*q2-1 = v2 ∧
          (uniform (uniform ran start false).2 start false).2 = ran2 := by
        refine ⟨congrArg Prod.fst h, ?_, ?_⟩
        · have := congrArg Prod.snd h
          exact congrArg Prod.fst this
        · have := congrArg Prod.snd h
          exact congrArg Prod.snd this
      subst h1; subst h2; subst h3
      refine ⟨?_, hne0, hlt, hI2⟩
      intro hz
      apply hne1
      have : q1 = 1/2 := by linarith [hz]
      exact this

/-- The Box-Muller factor is strictly positive for an accepted pair. -/
theorem bmFac_pos {v1 v2 : ℚ} (h0 : v1 * v1 + v2 * v2 ≠ 0)
    (h1 : v1 * v1 + v2 * v2 < 1) : 0 < bmFac v1 v2 := by
  have hge : (0:ℝ) ≤ (v1:ℝ) * v1 + (v2:ℝ) * v2 := by
    have g1 := mul_self_nonneg (v1:ℝ)
    have g2 := mul_self_nonneg (v2:ℝ)
    linarith
  have hne : ((v1:ℝ) * v1 + (v2:ℝ) * v2) ≠ 0 := by
    intro hz
    apply h0
    have : ((v1 * v1 + v2 * v2 : ℚ) : ℝ) = 0 := by push_cast; linarith
    exact_mod_cast this
  have hr0 : (0:ℝ) < (v1:ℝ) * v1 + (v2:ℝ) * v2 := lt_of_le_of_ne hge (Ne.symm hne)
  have hr1 : (v1:ℝ) * v1 + (v2:ℝ) * v2 < 1 := by exact_mod_cast h1
  have hlog : Real.log ((v1:ℝ) * v1 + (v2:ℝ) * v2) < 0 := Real.log_neg hr0 hr1
  unfold bmFac
  apply Real.sqrt_pos.mpr
  apply div_pos (by linarith) hr0

/-- A continuation `normal` call on an empty cache takes the fresh
Box-Muller branch. -/
theorem normal_false_fresh (f : ℕ) (st : DState) (start : ℤ) (mu sig : ℚ)
    (h0 : st.normVal = 0) :
    normal f st start mu sig false =
      (boxMuller f st.ran start false).map (fun p =>
        ((st.u : ℝ) + (st.s : ℝ) * (p.2.1 : ℝ) * bmFac p.1 p.2.1,
          ⟨p.2.2, (p.1 : ℝ) * bmFac p.1 p.2.1, st.u, st.s⟩)) := by
  simp only [normal, Bool.false_eq_true, if_false, if_pos h0]

/-- A continuation `normal` call on a pending cache consumes it: it returns
`u + s*cached`, clears the cache, and leaves the engine untouched. -/
theorem normal_false_consume (f : ℕ) (st : DState) (start : ℤ) (mu sig : ℚ)
    (h0 : st.normVal ≠ 0) :
    normal f st start mu sig false =
      some ((st.u : ℝ) + (st.s : ℝ) * st.normVal, ⟨st.ran, 0, st.u, st.s⟩) := by
  simp only [normal, Bool.false_eq_true, if_false, if_neg h0]

/-- An initializing `normal` call on a pending cache adopts the new
`mu`/`sig` but then merely consumes the stale cache: it returns
`u + s*cached` computed from the pre-existing cache value and performs no
uniform draw, so the engine state (seed and shuffle table) is left exactly
as it was. -/
theorem normal_true_consume (f : ℕ) (st : DState) (start : ℤ) (mu sig : ℚ)
    (h0 : st.normVal ≠ 0) :
    normal f st start mu sig true =
      some (((if mu < 0 then 0 else mu : ℚ) : ℝ) +
        ((if 0 < sig then sig else 1 : ℚ) : ℝ) * st.normVal,
        ⟨st.ran, 0, if mu < 0 then 0 else mu, if 0 < sig then sig else 1⟩) := by
  simp only [normal, if_true, dstate_normVal_mk, dstate_ran_mk, dstate_u_mk,
    dstate_s_mk, if_neg h0]

/-! ### Claim C6: re-initialization with a pending cached normal value -/

/-- C6 — the code does not discard the prior state on re-initialization.
A `normal` call with `init = true` on an instance holding a pending cached
value (`normVal ≠ 0`) takes the cache-consuming branch: it returns
`mean + stdDev * cached` derived from the PRIOR sequence's cache, and the
uniform engine (seed and shuffle table) is not re-initialized — the
returned state carries `st.ran` unchanged. -/
theorem claim6_reinit_keeps_stale_state (f : ℕ) (st : DState) (start : ℤ)
    (mu sig : ℚ) (h : st.normVal ≠ 0) :
    normal f st start mu sig true =
      some (((if mu < 0 then 0 else mu : ℚ) : ℝ) +
        ((if 0 < sig then sig else 1 : ℚ) : ℝ) * st.normVal,
        ⟨st.ran, 0, if mu < 0 then 0 else mu, if 0 < sig then sig else 1⟩) :=
  normal_true_consume f st start mu sig h

set_option maxRecDepth 100000 in
/-- Counterexample to C6 as stated: an instance with engine state
`⟨77, [5,…,5]⟩` and cached value 1, re-initialized via
`normal(1, 0, 1, true)`, returns the stale value `0 + 1*1 = 1` and keeps
its shuffle table, which differs from the table a fresh instance builds for
seed 1 — the subsequent sequence is not that of a fresh instance. -/
theorem claim6_counterexample :
    normal 3 ⟨⟨77, List.replicate 32 5⟩, 1, 0, 1⟩ 1 0 1 true =
      some (1, ⟨⟨77, List.replicate 32 5⟩, 0, 0, 1⟩) ∧
    (⟨77, List.replicate 32 5⟩ : RanState) ≠ (uniform ⟨0, []⟩ 1 true).2 := by
  constructor
  · rw [normal_true_consume 3 _ 1 0 1 (by norm_num [dstate_normVal_mk])]
    norm_num [dstate_normVal_mk, dstate_ran_mk, dstate_u_mk, dstate_s_mk]
  · intro h
    have h2 := congrArg RanState.idum h
    rw [uniform_true_snd, RanState.idum_mk, RanState.idum_mk] at h2
    exact absurd h2 (by decide)

/-- Witness for C6: the stale-cache re-initialization at a concrete state. -/
theorem claim6_witness :
    ((⟨⟨77, List.replicate 32 5⟩, 1, 0, 1⟩ : DState).normVal ≠ 0) ∧
      normal 3 ⟨⟨77, List.replicate 32 5⟩, 1, 0, 1⟩ 1 0 1 true =
        some (((if (0:ℚ) < 0 then 0 else 0 : ℚ) : ℝ) +
          ((if (0:ℚ) < 1 then 1 else 1 : ℚ) : ℝ) *
            (⟨⟨77, List.replicate 32 5⟩, 1, 0, 1⟩ : DState).normVal,
          ⟨(⟨⟨77, List.replicate 32 5⟩, 1, 0, 1⟩ : DState).ran, 0,
            if (0:ℚ) < 0 then 0 else 0, if (0:ℚ) < 1 then 1 else 1⟩) :=
  ⟨by norm_num [dstate_normVal_mk],
    claim6_reinit_keeps_stale_state 3 _ 1 0 1 (by norm_num [dstate_normVal_mk])⟩

/-! ### Claim C9: mean/stdDev validation on re-initialization -/

/-- C9 — the NaN branch of the stdDev validation is wrong in the code.
The mean validation (line 161/254) behaves as claimed: `NaN` and negative
means fall back to 0, others are adopted.  But the stdDev test
(line 162/255) reads `isNaN(sig) || sig > 0 ? sig : 1.0`, so a `NaN`
standard deviation satisfies the first disjunct and is adopted AS `NaN`
instead of falling back to 1; only non-positive numeric values fall back
to 1. -/
theorem claim9_stddev_nan_adopted :
    adoptMean none = some 0 ∧ adoptMean (some (-3)) = some 0 ∧
    adoptMean (some 3) = some 3 ∧
    adoptStd (some 2) = some 2 ∧ adoptStd (some 0) = some 1 ∧
    adoptStd (some (-2)) = some 1 ∧
    adoptStd none = none ∧ adoptStd none ≠ some 1 := by
  refine ⟨by decide, by decide, by decide, by decide, by decide, by decide,
    rfl, by decide⟩

/-! ### Claim C7: strict alternation of the Box-Muller cache -/

/-- C7 — confirmed.  For any two consecutive post-initialization `normal`
calls on an instance whose engine satisfies the invariant, exactly one of
the calls computes a fresh Box-Muller pair (caching `v1*fac`, which is
never 0 because no uniform draw equals 1/2 and `fac > 0`) and exactly one
consumes the cache in O(1): it returns `mean + stdDev * cached`, clears the
cache, and performs no uniform draw (the engine state is untouched). -/
theorem claim7_normal_cache_alternation (f g : ℕ) (start : ℤ) (mu sig : ℚ)
    (st : DState) (hInv : Inv st.ran) (r₁ r₂ : ℝ) (st₁ st₂ : DState)
    (h1 : normal f st start mu sig false = some (r₁, st₁))
    (h2 : normal g st₁ start mu sig false = some (r₂, st₂)) :
    (st.normVal = 0 ∧
      (∃ v1 v2 ran2, boxMuller f st.ran start false = some (v1, v2, ran2) ∧
        st₁ = ⟨ran2, (v1:ℝ) * bmFac v1 v2, st.u, st.s⟩ ∧
        r₁ = (st.u : ℝ) + (st.s : ℝ) * (v2:ℝ) * bmFac v1 v2) ∧
      st₁.normVal ≠ 0 ∧
      r₂ = (st₁.u : ℝ) + (st₁.s : ℝ) * st₁.normVal ∧
      st₂ = ⟨st₁.ran, 0, st₁.u, st₁.s⟩) ∨
    (st.normVal ≠ 0 ∧
      r₁ = (st.u : ℝ) + (st.s : ℝ) * st.normVal ∧
      st₁ = ⟨st.ran, 0, st.u, st.s⟩ ∧ st₁.normVal = 0 ∧
      (∃ v1 v2 ran2, boxMuller g st₁.ran start false = some (v1, v2, ran2) ∧
        st₂ = ⟨ran2, (v1:ℝ) * bmFac v1 v2, st₁.u, st₁.s⟩ ∧
        st₂.normVal ≠ 0 ∧
        r₂ = (st₁.u : ℝ) + (st₁.s : ℝ) * (v2:ℝ) * bmFac v1 v2)) := by
  by_cases h0 : st.normVal = 0
  · left
    rw [normal_false_fresh f st start mu sig h0] at h1
    cases hbm : boxMuller f st.ran start false with
    | none => rw [hbm] at h1; simp at h1
    | some p =>
      obtain ⟨v1, v2, ran2⟩ := p
      rw [hbm, Option.map_some', Option.some_inj] at h1
      have hr1 : r₁ = (st.u : ℝ) + (st.s : ℝ) * (v2:ℝ) * bmFac v1 v2 :=
        (congrArg Prod.fst h1).symm
      have hst1 : st₁ = ⟨ran2, (v1:ℝ) * bmFac v1 v2, st.u, st.s⟩ :=
        (congrArg Prod.snd h1).symm
      obtain ⟨hv1, hrsq0, hrsq1, hI2⟩ :=
        boxMuller_spec start f st.ran hInv v1 v2 ran2 hbm
      have hfac := bmFac_pos hrsq0 hrsq1
      have hnv0 : st₁.normVal ≠ 0 := by
        rw [hst1, dstate_normVal_mk]
        exact mul_ne_zero (by exact_mod_cast hv1) (ne_of_gt hfac)
      rw [normal_false_consume g st₁ start mu sig hnv0, Option.some_inj] at h2
      exact ⟨h0, ⟨v1, v2, ran2, rfl, hst1, hr1⟩, hnv0,
        (congrArg Prod.fst h2).symm, (congrArg Prod.snd h2).symm⟩
  · right
    rw [normal_false_consume f st start mu sig h0, Option.some_inj] at h1
    have hr1 : r₁ = (st.u : ℝ) + (st.s : ℝ) * st.normVal :=
      (congrArg Prod.fst h1).symm
    have hst1 : st₁ = ⟨st.ran, 0, st.u, st.s⟩ := (congrArg Prod.snd h1).symm
    have h10 : st₁.normVal = 0 := by rw [hst1, dstate_normVal_mk]
    have hran1 : st₁.ran = st.ran := by rw [hst1, dstate_ran_mk]
    have hInv1 : Inv st₁.ran := by rw [hran1]; exact hInv
    rw [normal_false_fresh g st₁ start mu sig h10] at h2
    cases hbm : boxMuller g st₁.ran start false with
    | none => rw [hbm] at h2; simp at h2
    | some p =>
      obtain ⟨v1, v2, ran2⟩ := p
      rw [hbm, Option.map_some', Option.some_inj] at h2
      have hr2 : r₂ = (st₁.u : ℝ) + (st₁.s : ℝ) * (v2:ℝ) * bmFac v1 v2 :=
        (congrArg Prod.fst h2).symm
      have hst2 : st₂ = ⟨ran2, (v1:ℝ) * bmFac v1 v2, st₁.u, st₁.s⟩ :=
        (congrArg Prod.snd h2).symm
      obtain ⟨hv1, hrsq0, hrsq1, hI2⟩ :=
        boxMuller_spec start g st₁.ran hInv1 v1 v2 ran2 hbm
      have hfac := bmFac_pos hrsq0 hrsq1
      have hnv2 : st₂.normVal ≠ 0 := by
        rw [hst2, dstate_normVal_mk]
        exact mul_ne_zero (by exact_mod_cast hv1) (ne_of_gt hfac)
      exact ⟨h0, hr1, hst1, h10, v1, v2, ran2, rfl, hst2, hnv2, hr2⟩

/-- One-step unfolding of the Box-Muller pair loop. -/
theorem boxMuller_succ (fuel : ℕ) (ran : RanState) (start : ℤ) (init : Bool) :
    boxMuller (fuel + 1) ran start init =
      match (uniform ran start init).1 with
      | none => none
      | some q1 =>
        match (uniform (uniform ran start init).2 start init).1 with
        | none => none
        | some q2 =>
          if 1 ≤ (2*q1-1) * (2*q1-1) + (2*q2-1) * (2*q2-1) ∨
              (2*q1-1) * (2*q1-1) + (2*q2-1) * (2*q2-1) = 0 then
            boxMuller fuel (uniform (uniform ran start init).2 start init).2 start init
          else some (2*q1-1, 2*q2-1, (uniform (uniform ran start init).2 start init).2) := rfl

/-- Witness for C7 on the engine state `⟨1, [1,…,1]⟩`: the first call rejects
the pair of draws `(1/M, 16807/M)` and accepts `(282475249/M, 1622650073/M)`,
caching a nonzero value; the second call consumes the cache. -/
theorem claim7_witness :
    Inv ((⟨⟨1, List.replicate 32 1⟩, 0, 0, 1⟩ : DState).ran) ∧
    ∃ (r₁ r₂ : ℝ) (st₁ st₂ : DState),
      normal 2 ⟨⟨1, List.replicate 32 1⟩, 0, 0, 1⟩ 1 0 1 false = some (r₁, st₁) ∧
      normal 2 st₁ 1 0 1 false = some (r₂, st₂) ∧
      (((⟨⟨1, List.replicate 32 1⟩, 0, 0, 1⟩ : DState).normVal = 0 ∧
        (∃ v1 v2 ran2,
          boxMuller 2 (⟨⟨1, List.replicate 32 1⟩, 0, 0, 1⟩ : DState).ran 1 false =
            some (v1, v2, ran2) ∧
          st₁ = ⟨ran2, (v1:ℝ) * bmFac v1 v2,
            (⟨⟨1, List.replicate 32 1⟩, 0, 0, 1⟩ : DState).u,
            (⟨⟨1, List.replicate 32 1⟩, 0, 0, 1⟩ : DState).s⟩ ∧
          r₁ = ((⟨⟨1, List.replicate 32 1⟩, 0, 0, 1⟩ : DState).u : ℝ) +
            ((⟨⟨1, List.replicate 32 1⟩, 0, 0, 1⟩ : DState).s : ℝ) * (v2:ℝ) *
              bmFac v1 v2) ∧
        st₁.normVal ≠ 0 ∧
        r₂ = (st₁.u : ℝ) + (st₁.s : ℝ) * st₁.normVal ∧
        st₂ = ⟨st₁.ran, 0, st₁.u, st₁.s⟩) ∨
      ((⟨⟨1, List.replicate 32 1⟩, 0, 0, 1⟩ : DState).normVal ≠ 0 ∧
        r₁ = ((⟨⟨1, List.replicate 32 1⟩, 0, 0, 1⟩ : DState).u : ℝ) +
          ((⟨⟨1, List.replicate 32 1⟩, 0, 0, 1⟩ : DState).s : ℝ) *
            (⟨⟨1, List.replicate 32 1⟩, 0, 0, 1⟩ : DState).normVal ∧
        st₁ = ⟨(⟨⟨1, List.replicate 32 1⟩, 0, 0, 1⟩ : DState).ran, 0,
          (⟨⟨1, List.replicate 32 1⟩, 0, 0, 1⟩ : DState).u,
          (⟨⟨1, List.replicate 32 1⟩, 0, 0, 1⟩ : DState).s⟩ ∧
        st₁.normVal = 0 ∧
        (∃ v1 v2 ran2, boxMuller 2 st₁.ran 1 false = some (v1, v2, ran2) ∧
          st₂ = ⟨ran2, (v1:ℝ) * bmFac v1 v2, st₁.u, st₁.s⟩ ∧
          st₂.normVal ≠ 0 ∧
          r₂ = (st₁.u : ℝ) + (st₁.s : ℝ) * (v2:ℝ) * bmFac v1 v2))) := by
  have w1 : uniform ⟨1, List.replicate 32 1⟩ 1 false =
      (some (clamp (AM * ((1:ℤ):ℚ))), ⟨16807, 16807 :: List.replicate 31 1⟩) := by
    rw [uniform_false_eq, show jsGet (List.replicate 32 1) 0 = some 1 from by decide,
      Option.map_some']
    congr 1
  have w2 : uniform ⟨16807, 16807 :: List.replicate 31 1⟩ 1 false =
      (some (clamp (AM * ((16807:ℤ):ℚ))),
        ⟨282475249, 282475249 :: List.replicate 31 1⟩) := by
    rw [uniform_false_eq,
      show jsGet (16807 :: List.replicate 31 1) 0 = some 16807 from by decide,
      Option.map_some']
    congr 1
  have w3 : uniform ⟨282475249, 282475249 :: List.replicate 31 1⟩ 1 false =
      (some (clamp (AM * ((282475249:ℤ):ℚ))),
        ⟨1622650073, 1622650073 :: List.replicate 31 1⟩) := by
    rw [uniform_false_eq,
      show jsGet (282475249 :: List.replicate 31 1) 0 = some 282475249 from by decide,
      Option.map_some']
    congr 1
  have w4 : uniform ⟨1622650073, 1622650073 :: List.replicate 31 1⟩ 1 false =
      (some (clamp (AM * ((1622650073:ℤ):ℚ))),
        ⟨984943658, 984943658 :: List.replicate 31 1⟩) := by
    rw [uniform_false_eq,
      show jsGet (1622650073 :: List.replicate 31 1) 0 = some 1622650073 from by decide,
      Option.map_some']
    congr 1
  have c1 : clamp (AM * ((1:ℤ):ℚ)) = 1/2147483647 := by
    norm_num [clamp, AM, RNMX, EPS]
  have c2 : clamp (AM * ((16807:ℤ):ℚ)) = 16807/2147483647 := by
    norm_num [clamp, AM, RNMX, EPS]
  have c3 : clamp (AM * ((282475249:ℤ):ℚ)) = 282475249/2147483647 := by
    norm_num [clamp, AM, RNMX, EPS]
  have c4 : clamp (AM * ((1622650073:ℤ):ℚ)) = 1622650073/2147483647 := by
    norm_num [clamp, AM, RNMX, EPS]
  have B : boxMuller 2 ⟨1, List.replicate 32 1⟩ 1 false =
      some (2 * (282475249/2147483647) - 1, 2 * (1622650073/2147483647) - 1,
        ⟨984943658, 984943658 :: List.replicate 31 1⟩) := by
    rw [show (2:ℕ) = 1 + 1 from rfl, boxMuller_succ]
    simp only [w1, w2, c1, c2]
    rw [if_pos (by norm_num)]
    rw [show (1:ℕ) = 0 + 1 from rfl, boxMuller_succ]
    simp only [w3, w4, c3, c4]
    rw [if_neg (by norm_num)]
  refine ⟨by decide, ?_⟩
  have E1 : normal 2 ⟨⟨1, List.replicate 32 1⟩, 0, 0, 1⟩ 1 0 1 false =
      some (((0:ℚ):ℝ) + ((1:ℚ):ℝ) * ((2 * (1622650073/2147483647) - 1 : ℚ):ℝ) *
          bmFac (2 * (282475249/2147483647) - 1) (2 * (1622650073/2147483647) - 1),
        ⟨⟨984943658, 984943658 :: List.replicate 31 1⟩,
          ((2 * (282475249/2147483647) - 1 : ℚ):ℝ) *
            bmFac (2 * (282475249/2147483647) - 1) (2 * (1622650073/2147483647) - 1),
          0, 1⟩) := by
    rw [normal_false_fresh 2 _ 1 0 1 (by norm_num [dstate_normVal_mk])]
    simp only [dstate_ran_mk, dstate_u_mk, dstate_s_mk]
    rw [B, Option.map_some']
  have hrsq0 : ((2 * (282475249/2147483647) - 1 : ℚ)) * (2 * (282475249/2147483647) - 1) +
      (2 * (1622650073/2147483647) - 1) * (2 * (1622650073/2147483647) - 1) ≠ 0 := by
    norm_num
  have hrsq1 : ((2 * (282475249/2147483647) - 1 : ℚ)) * (2 * (282475249/2147483647) - 1) +
      (2 * (1622650073/2147483647) - 1) * (2 * (1622650073/2147483647) - 1) < 1 := by
    norm_num
  have hfac := bmFac_pos hrsq0 hrsq1
  have hnv : (((2 * (282475249/2147483647) - 1 : ℚ)):ℝ) *
      bmFac (2 * (282475249/2147483647) - 1) (2 * (1622650073/2147483647) - 1) ≠ 0 := by
    apply mul_ne_zero
    · intro hz
      have : (2 * (282475249/2147483647) - 1 : ℚ) = 0 := by exact_mod_cast hz
      norm_num at this
    · exact ne_of_gt hfac
  have E2 : normal 2
      (⟨⟨984943658, 984943658 :: List.replicate 31 1⟩,
        ((2 * (282475249/2147483647) - 1 : ℚ):ℝ) *
          bmFac (2 * (282475249/2147483647) - 1) (2 * (1622650073/2147483647) - 1),
        0, 1⟩ : DState) 1 0 1 false =
      some (((0:ℚ):ℝ) + ((1:ℚ):ℝ) *
          (((2 * (282475249/2147483647) - 1 : ℚ):ℝ) *
            bmFac (2 * (282475249/2147483647) - 1) (2 * (1622650073/2147483647) - 1)),
        ⟨⟨984943658, 984943658 :: List.replicate 31 1⟩, 0, 0, 1⟩) := by
    rw [normal_false_consume 2 _ 1 0 1 (by simpa [dstate_normVal_mk] using hnv)]
  exact ⟨_, _, _, _, E1, E2,
    claim7_normal_cache_alternation 2 2 1 0 1 _ (by decide) _ _ _ _ E1 E2⟩

/-! ### The gamma deviate (source lines 201-235)

The loop state carries the engine plus the local variables `x`, `v`, `u`,
`xSQ` of lines 216-219, and an instrumentation counter `draws` recording the
number of `this.uniform(...)` invocations made so far (the call-counter
device that spec §8 uses to observe the transform; it does not influence
control flow). -/

structure GammaState where
  ran : RanState
  x : ℝ
  v : ℝ
  u : ℝ
  xSQ : ℝ
  draws : ℕ

theorem gstate_ran_mk (r : RanState) (a b c d : ℝ) (n : ℕ) :
    (GammaState.mk r a b c d n).ran = r := rfl

theorem gstate_x_mk (r : RanState) (a b c d : ℝ) (n : ℕ) :
    (GammaState.mk r a b c d n).x = a := rfl

theorem gstate_v_mk (r : RanState) (a b c d : ℝ) (n : ℕ) :
    (GammaState.mk r a b c d n).v = b := rfl

theorem gstate_u_mk (r : RanState) (a b c d : ℝ) (n : ℕ) :
    (GammaState.mk r a b c d n).u = c := rfl

theorem gstate_xSQ_mk (r : RanState) (a b c d : ℝ) (n : ℕ) :
    (GammaState.mk r a b c d n).xSQ = d := rfl

theorem gstate_draws_mk (r : RanState) (a b c d : ℝ) (n : ℕ) :
    (GammaState.mk r a b c d n).draws = n := rfl

/-- The inner redraw loop (lines 223-227):
`while (v <= 0.0) { x = this.uniform(start, init); v = 1.0 + this.a2*x; }`.
Fueled; returns the engine, `x`, `v` and the updated draw counter.  `none`
models fuel exhaustion or a NaN draw. -/
noncomputable def gammaInner :
    ℕ → ℝ → ℤ → Bool → RanState → ℝ → ℝ → ℕ → Option (RanState × ℝ × ℝ × ℕ)
  | 0, _, _, _, _, _, _, _ => none
  | fuel + 1, a2, start, init, ran, x, v, cnt =>
    if v ≤ 0 then
      match (uniform ran start init).1 with
      | none => none
      | some q =>
        gammaInner fuel a2 start init (uniform ran start init).2 (q:ℝ)
          (1 + a2 * (q:ℝ)) (cnt + 1)
    else some (ran, x, v, cnt)

/-- One iteration of the outer rejection loop's body (lines 222-231): run the
inner redraw loop, cube `v`, draw the second uniform `u`, set `xSQ = x*x`. -/
noncomputable def gammaStep (a2 : ℝ) (start : ℤ) (init : Bool) (fuel : ℕ)
    (g : GammaState) : Option GammaState :=
  match gammaInner fuel a2 start init g.ran g.x g.v g.draws with
  | none => none
  | some r =>
    match (uniform r.1 start init).1 with
    | none => none
    | some q =>
      some ⟨(uniform r.1 start init).2, r.2.1, r.2.2.1 * r.2.2.1 * r.2.2.1,
        (q:ℝ), r.2.1 * r.2.1, r.2.2.2 + 1⟩

/-- The outer loop's continuation condition (line 221):
`u > 1.0 - xSQ*xSQ && Math.log(u) > 0.5*xSQ + a1*(1.0 - v + Math.log(v))`.
At the loop's first test `v = 0`; JavaScript evaluates `Math.log(0) = -∞`,
making the second conjunct true whenever `a1 > 0` (and `a1 ≥ 2/3` always
holds after validation).  Mathlib's `Real.log 0 = 0` convention would render
that case wrongly, so the `v = 0` case is split out explicitly; `v < 0`
never occurs at the test (after the first iteration `v` is a positive cube).
-/
noncomputable def gammaCond (a1 : ℝ) (g : GammaState) : Prop :=
  g.u > 1 - g.xSQ * g.xSQ ∧
    (g.v = 0 ∨ Real.log g.u > 0.5 * g.xSQ + a1 * (1 - g.v + Real.log g.v))

open Classical in
/-- The fueled outer rejection loop (lines 221-232). -/
noncomputable def gammaLoop (a1 a2 : ℝ) (start : ℤ) (init : Bool) :
    ℕ → GammaState → Option GammaState
  | 0, _ => none
  | fuel + 1, g =>
    if gammaCond a1 g then
      match gammaStep a2 start init fuel g with
      | none => none
      | some g2 => gammaLoop a1 a2 start init fuel g2
    else some g

/-- The parameter validation (lines 203-214) for numeric (non-NaN)
`alpha`/`beta`: it runs only when `start` is truthy (nonzero), adopts
`a = alpha` if positive else 1, bumps `a` by 1 when `a < 1`, and adopts
`b = beta` unless `beta < 1e-4`.  `a0`/`b0` are the instance's prior
values. -/
noncomputable def gammaParams (a0 b0 : ℝ) (start : ℤ) (alpha beta : ℝ) :
    ℝ × ℝ :=
  if start ≠ 0 then
    ((if (if alpha ≤ 0 then 1 else alpha) < 1 then
        (if alpha ≤ 0 then 1 else alpha) + 1
      else (if alpha ≤ 0 then 1 else alpha)),
      if beta < 0.0001 then 0.5 else beta)
  else (a0, b0)

/-- `gamma(start, alpha, beta, init)` (lines 201-235): validate parameters,
derive `a1 = a - 1/3` and `a2 = 1/sqrt(9*a1)`, run the rejection loop from
`u = 10, v = 0, x = 0, xSQ = 0` (lines 216-219), and on exit return
`a1*v/b`. -/
noncomputable def gamma (fuel : ℕ) (ran : RanState) (start : ℤ)
    (alpha beta : ℝ) (init : Bool) (a0 b0 : ℝ) : Option (ℝ × GammaState) :=
  let p := gammaParams a0 b0 start alpha beta
  let A1 := p.1 - 1/3
  let A2 := 1 / Real.sqrt (9 * A1)
  match gammaLoop A1 A2 start init fuel ⟨ran, 0, 0, 10, 0, 0⟩ with
  | none => none
  | some g => some (A1 * g.v / p.2, g)

/-- One-step unfolding of the inner redraw loop. -/
theorem gammaInner_succ (fuel : ℕ) (a2 : ℝ) (start : ℤ) (init : Bool)
    (ran : RanState) (x v : ℝ) (cnt : ℕ) :
    gammaInner (fuel + 1) a2 start init ran x v cnt =
      if v ≤ 0 then
        match (uniform ran start init).1 with
        | none => none
        | some q =>
          gammaInner fuel a2 start init (uniform ran start init).2 (q:ℝ)
            (1 + a2 * (q:ℝ)) (cnt + 1)
      else some (ran, x, v, cnt) := rfl

/-! ### Claim C8: the gamma rejection loop never redraws `x` -/

set_option maxRecDepth 100000 in
/-- C8 — the code does not draw a fresh `x` on later rejection-loop
iterations.  At the failing input `gamma(80, 4/3, 1/2, true)` (so `a1 = 1`,
`a2 = 1/sqrt(9) = 1/3`; with `init = true` every uniform call re-seeds and
returns the same draw `2139408020/M ≈ 0.99624`): the first loop iteration
consumes two uniform draws (`x` from the inner redraw loop and `u`), the
continuation condition of line 221 then holds (proved through explicit
bounds on `Real.log`), so the loop runs a second iteration — and that
second iteration consumes exactly ONE uniform draw (`u` only), keeps `x`
unchanged, and cubes the previous `v` once more instead of recomputing
`v = (1 + a2*x)³` from a fresh `x`: the inner `while (v <= 0)` guard is
false because `v` is already a positive cube.  The claim requires every
iteration to draw a fresh `x`. -/
theorem claim8_gamma_rejection_reuses_x :
    gammaParams 1 1 80 (4/3) (1/2) = (4/3, 1/2) ∧
    (4/3 : ℝ) - 1/3 = 1 ∧
    1 / Real.sqrt (9 * ((4/3 : ℝ) - 1/3)) = 1/3 ∧
    ∃ g1 g2 : GammaState,
      gammaStep (1/3) 80 true 5 ⟨⟨0, []⟩, 0, 0, 10, 0, 0⟩ = some g1 ∧
      g1.draws = 2 ∧
      gammaCond 1 g1 ∧
      gammaStep (1/3) 80 true 5 g1 = some g2 ∧
      g2.draws = 3 ∧ g2.x = g1.x ∧ g2.v = g1.v * g1.v * g1.v := by
  obtain ⟨C, R, hu, hC⟩ : ∃ (C : ℚ) (R : RanState),
      (∀ st : RanState, uniform st 80 true = (some C, R)) ∧
      C = 2139408020/2147483647 := by
    refine ⟨clamp (AM * ((2139408020:ℤ):ℚ)), (uniform ⟨0, []⟩ 80 true).2, ?_, ?_⟩
    · have hfst : (uniform ⟨0, []⟩ 80 true).1 =
          some (clamp (AM * ((2139408020:ℤ):ℚ))) := by
        rw [uniform_true_fst,
          show jsGet (ivInit 80) (ndivIndex (idumInit 80)) = some 2139408020
            from by decide,
          Option.map_some']
      intro st
      rw [uniform_true_state_indep st ⟨0, []⟩ 80, ← hfst]
    · norm_num [clamp, AM, RNMX, EPS]
  have hcpos : (0:ℝ) < (C:ℝ) := by rw [hC]; norm_num
  have hVpos : (0:ℝ) < 1 + 1/3 * (C:ℝ) := by positivity
  have I1 : gammaInner 5 (1/3) 80 true ⟨0, []⟩ 0 0 0 =
      some (R, (C:ℝ), 1 + 1/3 * (C:ℝ), 1) := by
    rw [show (5:ℕ) = 4 + 1 from rfl, gammaInner_succ, if_pos le_rfl]
    simp only [hu]
    rw [show (4:ℕ) = 3 + 1 from rfl, gammaInner_succ,
      if_neg (not_le.mpr hVpos)]
  have E1 : gammaStep (1/3) 80 true 5 ⟨⟨0, []⟩, 0, 0, 10, 0, 0⟩ =
      some ⟨R, (C:ℝ),
        (1 + 1/3 * (C:ℝ)) * (1 + 1/3 * (C:ℝ)) * (1 + 1/3 * (C:ℝ)),
        (C:ℝ), (C:ℝ) * (C:ℝ), 2⟩ := by
    simp only [gammaStep, gstate_ran_mk, gstate_x_mk, gstate_v_mk,
      gstate_draws_mk, I1, hu]
  have hWpos : (0:ℝ) <
      (1 + 1/3 * (C:ℝ)) * (1 + 1/3 * (C:ℝ)) * (1 + 1/3 * (C:ℝ)) :=
    mul_pos (mul_pos hVpos hVpos) hVpos
  have I2 : gammaInner 5 (1/3) 80 true R (C:ℝ)
      ((1 + 1/3 * (C:ℝ)) * (1 + 1/3 * (C:ℝ)) * (1 + 1/3 * (C:ℝ))) 2 =
      some (R, (C:ℝ),
        (1 + 1/3 * (C:ℝ)) * (1 + 1/3 * (C:ℝ)) * (1 + 1/3 * (C:ℝ)), 2) := by
    rw [show (5:ℕ) = 4 + 1 from rfl, gammaInner_succ,
      if_neg (not_le.mpr hWpos)]
  have E2 : gammaStep (1/3) 80 true 5
      (⟨R, (C:ℝ),
        (1 + 1/3 * (C:ℝ)) * (1 + 1/3 * (C:ℝ)) * (1 + 1/3 * (C:ℝ)),
        (C:ℝ), (C:ℝ) * (C:ℝ), 2⟩ : GammaState) =
      some ⟨R, (C:ℝ),
        ((1 + 1/3 * (C:ℝ)) * (1 + 1/3 * (C:ℝ)) * (1 + 1/3 * (C:ℝ))) *
          ((1 + 1/3 * (C:ℝ)) * (1 + 1/3 * (C:ℝ)) * (1 + 1/3 * (C:ℝ))) *
          ((1 + 1/3 * (C:ℝ)) * (1 + 1/3 * (C:ℝ)) * (1 + 1/3 * (C:ℝ))),
        (C:ℝ), (C:ℝ) * (C:ℝ), 3⟩ := by
    simp only [gammaStep, gstate_ran_mk, gstate_x_mk, gstate_v_mk,
      gstate_draws_mk, I2, hu]
  have hcond : gammaCond 1
      (⟨R, (C:ℝ),
        (1 + 1/3 * (C:ℝ)) * (1 + 1/3 * (C:ℝ)) * (1 + 1/3 * (C:ℝ)),
        (C:ℝ), (C:ℝ) * (C:ℝ), 2⟩ : GammaState) := by
    unfold gammaCond
    simp only [gstate_u_mk, gstate_v_mk, gstate_xSQ_mk]
    constructor
    · rw [hC]
      push_cast
      norm_num
    · right
      rw [hC]
      push_cast
      set c : ℝ := (2139408020:ℝ)/2147483647 with hcdef
      have hc0 : (0:ℝ) < c := by rw [hcdef]; norm_num
      set V : ℝ := 1 + 1/3 * c with hVdef
      have hV0 : (0:ℝ) < V := by rw [hVdef]; linarith
      have hW0 : (0:ℝ) < V * V * V := mul_pos (mul_pos hV0 hV0) hV0
      have hq0 : (0:ℝ) < V * V * V / (2 * c) := div_pos hW0 (by linarith)
      have k1 : V * V * V / (2 * c) < ((255397:ℝ)/250000)^8 := by
        rw [div_lt_iff₀ (by linarith : (0:ℝ) < 2 * c), hVdef, hcdef]
        norm_num
      have k2 : Real.log (V * V * V / (2 * c)) <
          Real.log (((255397:ℝ)/250000)^8) := Real.log_lt_log hq0 k1
      have k3 : Real.log (((255397:ℝ)/250000)^8) =
          8 * Real.log ((255397:ℝ)/250000) := by
        rw [Real.log_pow]
        norm_num
      have k4 : Real.log ((255397:ℝ)/250000) ≤ (255397:ℝ)/250000 - 1 :=
        Real.log_le_sub_one_of_pos (by norm_num)
      have k5 : Real.log 2 < 0.6931471808 := Real.log_two_lt_d9
      have ksplit : V * V * V / c = 2 * (V * V * V / (2 * c)) := by
        field_simp
        ring
      have k6 : Real.log (V * V * V / c) =
          Real.log 2 + Real.log (V * V * V / (2 * c)) := by
        rw [ksplit, Real.log_mul (by norm_num) (ne_of_gt hq0)]
      have k7 : (0.6931471808:ℝ) + 8 * ((255397:ℝ)/250000 - 1) <
          V * V * V - 1 - 0.5 * (c * c) := by
        rw [hVdef, hcdef]
        norm_num
      have k8 : Real.log (V * V * V / c) = Real.log (V * V * V) - Real.log c :=
        Real.log_div (ne_of_gt hW0) (ne_of_gt hc0)
      have k9 : Real.log (V * V * V) - Real.log c < V * V * V - 1 - 0.5 * (c * c) := by
        rw [← k8, k6]
        linarith
      linarith
  refine ⟨?_, by norm_num, ?_, ?_⟩
  · unfold gammaParams
    rw [if_pos (by norm_num : (80:ℤ) ≠ 0)]
    norm_num
  · rw [show (9:ℝ) * ((4/3:ℝ) - 1/3) = 3^2 by norm_num,
      Real.sqrt_sq (by norm_num : (0:ℝ) ≤ 3)]
  · exact ⟨_, _, E1, rfl, hcond, E2, rfl, rfl, rfl⟩

end Deviates
